import Mathlib

/-!
Shallow embedding of the Turtle Trading / Donchian + ATR calculation engine:
the pure numeric core of the repository (candle data model, Donchian band
computation, true range, Wilder-smoothed ATR, breakout classification,
position sizing, stop/target levels and the evaluation orchestrator).
JavaScript numbers are modelled as rationals; `undefined` fields and
"no result" sentinels are modelled as `Option`.
-/

/-- Candle with numeric OHLC (and optional volume) for calculations. -/
structure Candle where
  o : ℚ
  c : ℚ
  h : ℚ
  l : ℚ
  v : Option ℚ := Option.none
  deriving DecidableEq

/-- Donchian bands for one bar (index i uses bars [i-n+1, i]). -/
structure DonchianBands where
  upper : ℚ
  lower : ℚ
  middle : ℚ
  deriving DecidableEq

/-- Donchian bands for the last n bars ending at index endIndex.
Mirrors the source: `start = max(0, endIndex - n + 1)` (natural subtraction
clamps at 0 exactly like `Math.max(0, ...)`), `slice = candles.slice(start,
endIndex + 1)`, the `slice.length < n` guard returning null, and the loop
that folds the running highest high / lowest low starting from `slice[0]`. -/
def donchianBands (candles : List Candle) (n : ℕ) (endIndex : ℕ) :
    Option DonchianBands :=
  let start := endIndex + 1 - n
  let slice := (candles.drop start).take (endIndex + 1 - start)
  if slice.length < n then Option.none
  else
    match slice with
    | [] => Option.none
    | c0 :: rest =>
      let upper := rest.foldl (fun u cj => if cj.h > u then cj.h else u) c0.h
      let lower := rest.foldl (fun lo cj => if cj.l < lo then cj.l else lo) c0.l
      some { upper := upper, lower := lower, middle := (upper + lower) / 2 }

/-- One step of the true-range loop: given the previous close `prevC`,
the bar's true range is `max(h - l, |h - prevC|, |l - prevC|)`. -/
def trueRangeFrom (prevC : ℚ) : List Candle → List ℚ
  | [] => []
  | cd :: rest =>
    max (cd.h - cd.l) (max |cd.h - prevC| |cd.l - prevC|) :: trueRangeFrom cd.c rest

/-- True Range for each bar. Mirrors the source loop, where for the first bar
`prevC` is the bar's own high (`i > 0 ? candles[i-1].c : h`). -/
def trueRange (candles : List Candle) : List ℚ :=
  match candles with
  | [] => []
  | cd :: _ => trueRangeFrom cd.h candles

/-- The Wilder-recurrence tail of the ATR loop: starting from accumulator `a`
(the value at the previous position), each remaining true range `t` produces
`(a * (n - 1) + t) / n`. -/
def atrFrom (n : ℕ) (a : ℚ) : List ℚ → List ℚ
  | [] => []
  | t :: ts =>
    let a2 := (a * ((n : ℚ) - 1) + t) / n
    a2 :: atrFrom n a2 ts

/-- ATR with Wilder smoothing, period n. Mirrors the source: empty result when
`tr.length < n`; otherwise the JavaScript `out[n-1] = sum / n` leaves holes
(here `Option.none`) at positions `0..n-2`, puts the seed mean at `n-1`, and
the loop pushes one Wilder-recurrence value per later true range. -/
def atr (candles : List Candle) (n : ℕ) : List (Option ℚ) :=
  let tr := trueRange candles
  if tr.length < n then []
  else
    let seed := (tr.take n).sum / n
    List.replicate (n - 1) Option.none ++ some seed :: (atrFrom n seed (tr.drop n)).map some

/-- Breakout direction from close vs bands. -/
inductive Direction where
  | long
  | short
  | none
  deriving DecidableEq

/-- Mirrors breakoutSignal: long if close > upper, short if close < lower. -/
def breakoutSignal (close upper lower : ℚ) : Direction :=
  if close > upper then Direction.long
  else if close < lower then Direction.short
  else Direction.none

/-- Breakout quality: full entry, DCA candidate, or no breach. -/
inductive BreakoutType where
  | true
  | sub
  | none
  deriving DecidableEq

/-- Mirrors breakoutType: the ordered long-then-short decision chain on the
last candle against the entry bands, with threshold distance `threshold * N`
and `volumeAboveAvg !== false` modelled as `volumeAboveAvg ≠ some false`. -/
def breakoutType (candle : Candle) (upper lower N threshold : ℚ)
    (volumeAboveAvg : Option Bool) : BreakoutType :=
  let threshN := threshold * N
  if candle.c > upper then
    if candle.c ≥ upper + threshN ∧ volumeAboveAvg ≠ some false then BreakoutType.true
    else BreakoutType.sub
  else if candle.h > upper ∧ candle.c ≤ upper then BreakoutType.sub
  else if candle.c < lower then
    if candle.c ≤ lower - threshN ∧ volumeAboveAvg ≠ some false then BreakoutType.true
    else BreakoutType.sub
  else if candle.l < lower ∧ candle.c ≥ lower then BreakoutType.sub
  else BreakoutType.none

/-- The specification's ordered decision list for breakout quality, written
from the spec's words (long case first: threshold-and-volume full breakout,
then marginal close, then wick-only; short case mirrored with `lower - t·N`;
otherwise none). Used to compare `breakoutType` against the spec. -/
def breakoutQualityList (candle : Candle) (upper lower N t : ℚ)
    (vol : Option Bool) : BreakoutType :=
  if candle.c > upper ∧ candle.c ≥ upper + t * N ∧ vol ≠ some false then BreakoutType.true
  else if candle.c > upper then BreakoutType.sub
  else if candle.h > upper ∧ candle.c ≤ upper then BreakoutType.sub
  else if candle.c < lower ∧ candle.c ≤ lower - t * N ∧ vol ≠ some false then BreakoutType.true
  else if candle.c < lower then BreakoutType.sub
  else if candle.l < lower ∧ candle.c ≥ lower then BreakoutType.sub
  else BreakoutType.none

/-- Mirrors positionSize: `(riskPct/100 * account) / (N * price)`, floored at
`szDecimals` digits (JavaScript `Math.floor` is `Int.floor`, i.e. rounding
toward negative infinity), with the `N ≤ 0 || price ≤ 0` zero guard. -/
def positionSize (accountUsd riskPct N price : ℚ) (szDecimals : ℕ) : ℚ :=
  if N ≤ 0 ∨ price ≤ 0 then 0
  else
    let riskDollars := (riskPct / 100) * accountUsd
    let size := riskDollars / (N * price)
    let factor : ℚ := 10 ^ szDecimals
    (⌊size * factor⌋ : ℚ) / factor

/-- Options record for slTpLevels (`tpMultiple?`, `trailingExit?`). -/
structure SlTpOptions where
  tpMultiple : Option ℚ := Option.none
  trailingExit : Option ℚ := Option.none
  deriving DecidableEq

/-- Result record of slTpLevels. -/
structure SlTpLevels where
  sl : ℚ
  tp : Option ℚ := Option.none
  trailingExit : Option ℚ := Option.none
  deriving DecidableEq

/-- Mirrors slTpLevels: stop at `entry ∓ 2N`; `tp` set only when a positive
`tpMultiple` is supplied (`options?.tpMultiple != null && > 0`); `trailingExit`
passed through when supplied. -/
def slTpLevels (entry N : ℚ) (isLong : Bool) (options : Option SlTpOptions) :
    SlTpLevels :=
  let sl := if isLong then entry - 2 * N else entry + 2 * N
  let tp :=
    match options with
    | some o =>
      match o.tpMultiple with
      | some m =>
        if m > 0 then some (if isLong then entry + m * N else entry - m * N)
        else Option.none
      | Option.none => Option.none
    | Option.none => Option.none
  { sl := sl, tp := tp, trailingExit := options.bind SlTpOptions.trailingExit }

/-- Multi-timeframe strength of a signal. -/
inductive Strength where
  | none
  | weak
  | medium
  | strong
  deriving DecidableEq

/-- String form of a Strength, as interpolated into the tag template. -/
def Strength.label : Strength → String
  | Strength.none => "none"
  | Strength.weak => "weak"
  | Strength.medium => "medium"
  | Strength.strong => "strong"

/-- The strength block of evaluationTag, extracted verbatim: both periods
agree = strong; confirmation (55) only = medium; entry only = weak. -/
def strengthOf (dir : Direction) (c uE lE u55 l55 : ℚ) : Strength :=
  match dir with
  | Direction.long =>
    if c > uE ∧ c > u55 then Strength.strong
    else if c > u55 then Strength.medium
    else if c > uE then Strength.weak
    else Strength.none
  | Direction.short =>
    if c < lE ∧ c < l55 then Strength.strong
    else if c < l55 then Strength.medium
    else if c < lE then Strength.weak
    else Strength.none
  | Direction.none => Strength.none

/-- Evaluation record returned by evaluationTag. The JavaScript string-union
fields are the inductive types above. -/
structure Evaluation where
  direction : Direction
  strength : Strength
  breakoutType : BreakoutType
  tag : String
  suggestion : String
  deriving DecidableEq

/-- The volume-ratio block of evaluationTag, extracted verbatim: defined when
the filter is on, the last bar has a volume and there are at least 21 bars;
the value is last volume over the mean of the 20 volumes before the last bar
(missing volumes counted 0 by `?? 0`), or 1 when that mean is not positive.
The loop `for i in [lastIdx-20, lastIdx)` sums exactly the volumes of
`(candles.drop (lastIdx - 20)).take 20`, all indices being in range under the
`length ≥ 21` guard. -/
def volumeRatioOf (useVolumeFilter : Bool) (candles : List Candle) : Option ℚ :=
  let lastIdx := candles.length - 1
  match candles.getLast? with
  | Option.none => Option.none
  | some last =>
    if useVolumeFilter = true ∧ last.v ≠ Option.none ∧ 21 ≤ candles.length then
      let window := (candles.drop (lastIdx - 20)).take 20
      let sum := (window.map (fun cd => cd.v.getD 0)).sum
      let avg := sum / 20
      some (if avg > 0 then (last.v.getD 0) / avg else 1)
    else Option.none

/-- Mirrors evaluationTag: guard `lastIdx < len55`, both band computations,
direction from the entry bands, optional volume ratio threaded into the
quality classification (`ratio ≥ 1` confirming), the strength block, the tag
and the suggestion strings. `lenExit` is accepted and unused, as in the
source. -/
def evaluationTag (candles : List Candle) (lenEntry lenExit len55 : ℕ)
    (N threshold : ℚ) (useVolumeFilter : Bool) : Option Evaluation :=
  let lastIdx := candles.length - 1
  if lastIdx < len55 then Option.none
  else
    match candles.getLast? with
    | Option.none => Option.none
    | some last =>
      match donchianBands candles lenEntry lastIdx, donchianBands candles len55 lastIdx with
      | some bandsEntry, some bands55 =>
        let dir := breakoutSignal last.c bandsEntry.upper bandsEntry.lower
        let volumeAboveAvg := (volumeRatioOf useVolumeFilter candles).map
          (fun r => decide (r ≥ 1))
        let bt := breakoutType last bandsEntry.upper bandsEntry.lower N threshold
          volumeAboveAvg
        let strength := strengthOf dir last.c bandsEntry.upper bandsEntry.lower
          bands55.upper bands55.lower
        let dirLabel :=
          match dir with
          | Direction.none => "None"
          | Direction.long => "Long"
          | Direction.short => "Short"
        let btLabel :=
          match bt with
          | BreakoutType.true => "True (full)"
          | BreakoutType.sub => "Sub (DCA)"
          | BreakoutType.none => "None"
        let tag :=
          if dir = Direction.none then "None"
          else dirLabel ++ " – " ++ strength.label ++ " – " ++ btLabel
        let suggestion :=
          if dir = Direction.none then "No breakout; no entry."
          else if bt = BreakoutType.true then "Full Turtle position size at current mid."
          else if bt = BreakoutType.sub then "DCA: use ½ unit or 1st tranche; add on confirmation."
          else "No entry."
        some { direction := dir, strength := strength, breakoutType := bt,
               tag := tag, suggestion := suggestion }
      | _, _ => Option.none

/-! Helper lemmas about the running-extremum folds used by donchianBands. -/

lemma if_gt_eq_max (a b : ℚ) : (if b > a then b else a) = max a b := by
  split_ifs with h
  · exact (max_eq_right h.le).symm
  · exact (max_eq_left (not_lt.mp h)).symm

lemma if_lt_eq_min (a b : ℚ) : (if b < a then b else a) = min a b := by
  split_ifs with h
  · exact (min_eq_right h.le).symm
  · exact (min_eq_left (not_lt.mp h)).symm

lemma foldl_hi_eq_foldl_max (a : ℚ) (l : List Candle) :
    l.foldl (fun u cj => if cj.h > u then cj.h else u) a = (l.map Candle.h).foldl max a := by
  rw [List.foldl_map]
  congr 1
  funext u cj
  exact if_gt_eq_max u cj.h

lemma foldl_lo_eq_foldl_min (a : ℚ) (l : List Candle) :
    l.foldl (fun lo cj => if cj.l < lo then cj.l else lo) a = (l.map Candle.l).foldl min a := by
  rw [List.foldl_map]
  congr 1
  funext lo cj
  exact if_lt_eq_min lo cj.l

lemma le_foldl_max (a : ℚ) (l : List ℚ) : a ≤ l.foldl max a := by
  induction l generalizing a with
  | nil => simp
  | cons x xs ih => exact le_trans (le_max_left a x) (ih (max a x))

lemma foldl_min_le (a : ℚ) (l : List ℚ) : l.foldl min a ≤ a := by
  induction l generalizing a with
  | nil => simp
  | cons x xs ih => exact le_trans (ih (min a x)) (min_le_left a x)

lemma le_foldl_max_of_mem (a x : ℚ) (l : List ℚ) (hx : x ∈ l) : x ≤ l.foldl max a := by
  induction l generalizing a with
  | nil => cases hx
  | cons y ys ih =>
    rcases List.mem_cons.mp hx with rfl | hmem
    · exact le_trans (le_max_right a x) (le_foldl_max (max a x) ys)
    · exact ih (max a y) hmem

lemma foldl_min_le_of_mem (a x : ℚ) (l : List ℚ) (hx : x ∈ l) : l.foldl min a ≤ x := by
  induction l generalizing a with
  | nil => cases hx
  | cons y ys ih =>
    rcases List.mem_cons.mp hx with rfl | hmem
    · exact le_trans (foldl_min_le (min a x) ys) (min_le_right a x)
    · exact ih (min a y) hmem

lemma foldl_max_mem (a : ℚ) (l : List ℚ) : l.foldl max a ∈ a :: l := by
  induction l generalizing a with
  | nil => simp
  | cons x xs ih =>
    simp only [List.foldl_cons]
    rcases List.mem_cons.mp (ih (max a x)) with heq | hmem
    · rw [heq]
      rcases max_choice a x with hc | hc <;> rw [hc] <;> simp
    · exact List.mem_cons.mpr (Or.inr (List.mem_cons.mpr (Or.inr hmem)))

lemma foldl_min_mem (a : ℚ) (l : List ℚ) : l.foldl min a ∈ a :: l := by
  induction l generalizing a with
  | nil => simp
  | cons x xs ih =>
    simp only [List.foldl_cons]
    rcases List.mem_cons.mp (ih (min a x)) with heq | hmem
    · rw [heq]
      rcases min_choice a x with hc | hc <;> rw [hc] <;> simp
    · exact List.mem_cons.mpr (Or.inr (List.mem_cons.mpr (Or.inr hmem)))

/-- C1: breakoutType implements exactly the specification's ordered decision
list for breakout quality — long full breakout (close above the band by at
least t·N with volume not explicitly false), then marginal long close, then
long wick-only, then the mirrored short cases with threshold lower − t·N,
and otherwise none. -/
theorem breakoutType_eq_spec_list (candle : Candle) (upper lower N t : ℚ)
    (vol : Option Bool) :
    breakoutType candle upper lower N t vol =
      breakoutQualityList candle upper lower N t vol := by
  simp only [breakoutType, breakoutQualityList]
  split_ifs <;> first | rfl | tauto

/-- C5: the long-branch checks of breakoutType are evaluated before the
short-branch checks: a candle whose high pierces the upper band while its
close stays at or below it is classified sub by the long wick branch, even
when the close simultaneously satisfies the short true-breakout conditions
(close < lower and close ≤ lower − t·N) on degenerate data. -/
theorem breakoutType_long_first (candle : Candle) (upper lower N t : ℚ)
    (vol : Option Bool) (hw : candle.h > upper) (hc : candle.c ≤ upper)
    (hs1 : candle.c < lower) (hs2 : candle.c ≤ lower - t * N) :
    breakoutType candle upper lower N t vol = BreakoutType.sub := by
  simp only [breakoutType]
  split_ifs <;> first | rfl | tauto | linarith

/-- Witness for C5 at a concrete degenerate candle: high 1 above upper 0,
close −20 at or below upper, and the close also below lower − t·N = −11. -/
theorem breakoutType_long_first_witness :
    (1 : ℚ) > 0 ∧ (-20 : ℚ) ≤ 0 ∧ (-20 : ℚ) < -10 ∧ (-20 : ℚ) ≤ -10 - 1 * 1 ∧
    breakoutType { o := 0, c := -20, h := 1, l := -30 } 0 (-10) 1 1 Option.none =
      BreakoutType.sub :=
  ⟨by norm_num, by norm_num, by norm_num, by norm_num,
   breakoutType_long_first { o := 0, c := -20, h := 1, l := -30 } 0 (-10) 1 1 Option.none
     (by norm_num) (by norm_num) (by norm_num) (by norm_num)⟩

/-- C3: with at least n bars ending at index i (n ≥ 1), donchianBands returns
bands whose upper is the maximum high and whose lower is the minimum low over
exactly the window [i−n+1, i] (here the n candles `(drop (i+1−n)).take n`),
with middle their average. The claim's unconditional `upper ≥ lower` is false
for inverted candles (see the counterexample), so it holds here under the
proviso that every candle in the window has low ≤ high. -/
theorem donchianBands_window_extrema (candles : List Candle) (n i : ℕ)
    (h1 : 1 ≤ n) (h2 : n ≤ i + 1) (h3 : i < candles.length) :
    ∃ b, donchianBands candles n i = some b ∧
      b.upper ∈ ((candles.drop (i + 1 - n)).take n).map Candle.h ∧
      (∀ x ∈ ((candles.drop (i + 1 - n)).take n).map Candle.h, x ≤ b.upper) ∧
      b.lower ∈ ((candles.drop (i + 1 - n)).take n).map Candle.l ∧
      (∀ x ∈ ((candles.drop (i + 1 - n)).take n).map Candle.l, b.lower ≤ x) ∧
      b.middle = (b.upper + b.lower) / 2 ∧
      ((∀ cd ∈ (candles.drop (i + 1 - n)).take n, cd.l ≤ cd.h) → b.lower ≤ b.upper) := by
  have hidx : i + 1 - (i + 1 - n) = n := by omega
  have hlen : ((candles.drop (i + 1 - n)).take n).length = n := by
    rw [List.length_take, List.length_drop]; omega
  have hne : (candles.drop (i + 1 - n)).take n ≠ [] := by
    intro hnil; rw [hnil] at hlen; simp at hlen; omega
  obtain ⟨c0, rest, hcr⟩ := List.exists_cons_of_ne_nil hne
  rw [hcr] at hlen
  simp only [donchianBands, hidx, hcr, hlen, lt_irrefl, if_false]
  refine ⟨_, rfl, ?_, ?_, ?_, ?_, rfl, ?_⟩
  · rw [foldl_hi_eq_foldl_max]
    exact foldl_max_mem c0.h (rest.map Candle.h)
  · intro x hx
    rw [foldl_hi_eq_foldl_max]
    rcases List.mem_cons.mp hx with rfl | hmem
    · exact le_foldl_max _ _
    · exact le_foldl_max_of_mem _ _ _ hmem
  · rw [foldl_lo_eq_foldl_min]
    exact foldl_min_mem c0.l (rest.map Candle.l)
  · intro x hx
    rw [foldl_lo_eq_foldl_min]
    rcases List.mem_cons.mp hx with rfl | hmem
    · exact foldl_min_le _ _
    · exact foldl_min_le_of_mem _ _ _ hmem
  · intro hvalid
    rw [foldl_hi_eq_foldl_max, foldl_lo_eq_foldl_min]
    calc (rest.map Candle.l).foldl min c0.l ≤ c0.l := foldl_min_le _ _
      _ ≤ c0.h := hvalid c0 (List.mem_cons_self _ _)
      _ ≤ (rest.map Candle.h).foldl max c0.h := le_foldl_max _ _

/-- Witness for C3 at one candle with high 2, low 1, window 1 ending at 0. -/
theorem donchianBands_window_extrema_witness :
    1 ≤ 1 ∧ 1 ≤ 0 + 1 ∧ 0 < [{ o := 0, c := 0, h := 2, l := 1 : Candle }].length ∧
    (∃ b, donchianBands [{ o := 0, c := 0, h := 2, l := 1 }] 1 0 = some b ∧
      b.upper ∈ (([{ o := 0, c := 0, h := 2, l := 1 : Candle }].drop (0 + 1 - 1)).take 1).map Candle.h ∧
      (∀ x ∈ (([{ o := 0, c := 0, h := 2, l := 1 : Candle }].drop (0 + 1 - 1)).take 1).map Candle.h, x ≤ b.upper) ∧
      b.lower ∈ (([{ o := 0, c := 0, h := 2, l := 1 : Candle }].drop (0 + 1 - 1)).take 1).map Candle.l ∧
      (∀ x ∈ (([{ o := 0, c := 0, h := 2, l := 1 : Candle }].drop (0 + 1 - 1)).take 1).map Candle.l, b.lower ≤ x) ∧
      b.middle = (b.upper + b.lower) / 2 ∧
      ((∀ cd ∈ ([{ o := 0, c := 0, h := 2, l := 1 : Candle }].drop (0 + 1 - 1)).take 1, cd.l ≤ cd.h) →
        b.lower ≤ b.upper)) :=
  ⟨le_refl 1, by omega, by simp,
   donchianBands_window_extrema [{ o := 0, c := 0, h := 2, l := 1 }] 1 0
     (by omega) (by omega) (by simp)⟩

/-- Counterexample to C3 as stated: for the inverted candle with high 0 and
low 1 the returned bands have upper = 0 strictly below lower = 1, refuting
the unconditional `upper ≥ lower` of the claim. -/
theorem donchianBands_inverted_candle :
    donchianBands [{ o := 0, c := 0, h := 0, l := 1 }] 1 0 =
      some { upper := 0, lower := 1, middle := 1/2 } ∧ ¬ ((1 : ℚ) ≤ 0) := by
  constructor
  · norm_num [donchianBands]
  · norm_num

/-- C6: for n ≥ 1, donchianBands returns the no-result sentinel exactly when
the window [max(0, i−n+1), i] intersected with the candle list holds fewer
than n bars; that bar count is `min (i+1) length − (i+1−n)` in truncated
natural arithmetic, where `i+1−n` is exactly `max(0, i−n+1)`. -/
theorem donchianBands_none_iff (candles : List Candle) (n i : ℕ) (h1 : 1 ≤ n) :
    (donchianBands candles n i = Option.none ↔
      min (i + 1) candles.length - (i + 1 - n) < n) := by
  have hlen : ((candles.drop (i + 1 - n)).take (i + 1 - (i + 1 - n))).length
      = min (i + 1) candles.length - (i + 1 - n) := by
    rw [List.length_take, List.length_drop]; omega
  simp only [donchianBands]
  split_ifs with hg
  · rw [hlen] at hg
    simp [hg]
  · rw [hlen] at hg
    have hge : ¬ (min (i + 1) candles.length - (i + 1 - n) < n) := hg
    have hne : (candles.drop (i + 1 - n)).take (i + 1 - (i + 1 - n)) ≠ [] := by
      intro hnil
      rw [hnil] at hlen
      simp at hlen
      omega
    obtain ⟨c0, rest, hcr⟩ := List.exists_cons_of_ne_nil hne
    rw [hcr]
    simp [hge]

/-- Witness for C6 on the empty candle list with n = 1, i = 0: no bar is
available, and the computation indeed returns the sentinel. -/
theorem donchianBands_none_iff_witness :
    1 ≤ 1 ∧ (donchianBands [] 1 0 = Option.none ↔
      min (0 + 1) ([] : List Candle).length - (0 + 1 - 1) < 1) :=
  ⟨le_refl 1, donchianBands_none_iff [] 1 0 (le_refl 1)⟩

lemma trueRangeFrom_length (p : ℚ) (cs : List Candle) :
    (trueRangeFrom p cs).length = cs.length := by
  induction cs generalizing p with
  | nil => rfl
  | cons x xs ih => simp [trueRangeFrom, ih]

lemma trueRange_length (cs : List Candle) : (trueRange cs).length = cs.length := by
  cases cs with
  | nil => rfl
  | cons x xs => simp [trueRange, trueRangeFrom_length]

lemma trueRangeFrom_getElem_succ (p : ℚ) (cs : List Candle) (i : ℕ) (prev cur : Candle)
    (hp : cs[i]? = some prev) (hc : cs[i + 1]? = some cur) :
    (trueRangeFrom p cs)[i + 1]? =
      some (max (cur.h - cur.l) (max |cur.h - prev.c| |cur.l - prev.c|)) := by
  induction cs generalizing p i with
  | nil => simp at hp
  | cons x xs ih =>
    cases i with
    | zero =>
      rw [List.getElem?_cons_zero] at hp
      injection hp with hp
      subst hp
      rw [List.getElem?_cons_succ] at hc
      cases xs with
      | nil => simp at hc
      | cons y ys =>
        rw [List.getElem?_cons_zero] at hc
        injection hc with hc
        subst hc
        simp [trueRangeFrom]
    | succ j =>
      rw [List.getElem?_cons_succ] at hp hc
      show (trueRangeFrom p (x :: xs))[j + 1 + 1]? = _
      simp only [trueRangeFrom, List.getElem?_cons_succ]
      exact ih x.c j hp hc

lemma atrFrom_length (n : ℕ) (a : ℚ) (ts : List ℚ) : (atrFrom n a ts).length = ts.length := by
  induction ts generalizing a with
  | nil => rfl
  | cons t ts ih => simp [atrFrom, ih]

lemma atrFrom_getElem_succ (n : ℕ) (a : ℚ) (ts : List ℚ) (i : ℕ) (p t : ℚ)
    (hp : (atrFrom n a ts)[i]? = some p) (ht : ts[i + 1]? = some t) :
    (atrFrom n a ts)[i + 1]? = some ((p * ((n : ℚ) - 1) + t) / n) := by
  induction ts generalizing a i with
  | nil => simp [atrFrom] at hp
  | cons u us ih =>
    cases i with
    | zero =>
      simp only [atrFrom, List.getElem?_cons_zero] at hp
      injection hp with hp
      rw [List.getElem?_cons_succ] at ht
      cases us with
      | nil => simp at ht
      | cons w ws =>
        rw [List.getElem?_cons_zero] at ht
        injection ht with ht
        subst ht
        simp only [atrFrom, List.getElem?_cons_succ, List.getElem?_cons_zero]
        rw [hp]
    | succ j =>
      simp only [atrFrom, List.getElem?_cons_succ] at hp ht ⊢
      exact ih _ j hp ht

lemma atr_eq_of_ge (candles : List Candle) (n : ℕ)
    (hlt : ¬ (trueRange candles).length < n) :
    atr candles n =
      List.replicate (n - 1) Option.none ++
        some (((trueRange candles).take n).sum / n) ::
          (atrFrom n (((trueRange candles).take n).sum / n)
            ((trueRange candles).drop n)).map some := by
  simp [atr, hlt]

lemma atr_getElem_shift (candles : List Candle) (n : ℕ)
    (hlt : ¬ (trueRange candles).length < n) (k : ℕ) :
    (atr candles n)[n - 1 + k]? =
      (some (((trueRange candles).take n).sum / n) ::
        (atrFrom n (((trueRange candles).take n).sum / n)
          ((trueRange candles).drop n)).map some)[k]? := by
  rw [atr_eq_of_ge candles n hlt, List.getElem?_append]
  rw [List.length_replicate]
  rw [if_neg (by omega)]
  congr 1
  omega

/-- C4: for a non-empty candle list, TR[0] equals high[0] − low[0] under the
proviso high[0] ≥ low[0] (the source seeds prevClose with the first bar's
high, which yields max(h−l, 0, |l−h|) and differs from h−l on inverted
candles — see the counterexample); and for every i > 0, TR[i] equals
max(high−low, |high−prevClose|, |low−prevClose|) with prevClose the close of
bar i−1. -/
theorem trueRange_first_and_rec (c0 : Candle) (rest : List Candle) :
    ((c0.l ≤ c0.h → (trueRange (c0 :: rest))[0]? = some (c0.h - c0.l)) ∧
     (∀ i prev cur, (c0 :: rest)[i]? = some prev → (c0 :: rest)[i + 1]? = some cur →
       (trueRange (c0 :: rest))[i + 1]? =
         some (max (cur.h - cur.l) (max |cur.h - prev.c| |cur.l - prev.c|)))) := by
  constructor
  · intro hvalid
    simp only [trueRange, trueRangeFrom, List.getElem?_cons_zero]
    congr 1
    have h1 : |c0.h - c0.h| = 0 := by simp
    have h2 : |c0.l - c0.h| = c0.h - c0.l := by
      rw [abs_sub_comm]
      exact abs_of_nonneg (by linarith)
    rw [h1, h2, max_eq_right (by linarith : (0:ℚ) ≤ c0.h - c0.l), max_self]
  · intro i prev cur hp hc
    simp only [trueRange]
    exact trueRangeFrom_getElem_succ c0.h (c0 :: rest) i prev cur hp hc

/-- Witness for C4 at a single valid candle with high 2, low 1: the first
true range evaluates to high − low. -/
theorem trueRange_first_and_rec_witness :
    ((1 : ℚ) ≤ 2) ∧ (trueRange [{ o := 0, c := 10, h := 2, l := 1 }])[0]? = some (2 - 1) :=
  ⟨by norm_num,
   (trueRange_first_and_rec { o := 0, c := 10, h := 2, l := 1 } []).1 (by norm_num)⟩

/-- Counterexample to C4 as stated: for an inverted first candle with high 0
and low 1 the code produces TR[0] = 1, not high − low = −1, because the
first bar's prevClose is its own high and the |low − prevClose| term wins. -/
theorem trueRange_inverted_candle :
    trueRange [{ o := 0, c := 0, h := 0, l := 1 }] = [1] ∧ ((1 : ℚ) ≠ 0 - 1) := by
  constructor
  · simp only [trueRange, trueRangeFrom]
    norm_num
  · norm_num

theorem atr_wilder (candles : List Candle) (n : ℕ) (h1 : 1 ≤ n) :
    ((atr candles n = [] ↔ (trueRange candles).length < n) ∧
     (n ≤ (trueRange candles).length →
       (atr candles n).length = candles.length ∧
       (∀ i, i < n - 1 → (atr candles n)[i]? = some Option.none) ∧
       (atr candles n)[n - 1]? = some (some (((trueRange candles).take n).sum / n)) ∧
       (∀ i, n ≤ i → i < (trueRange candles).length →
         ∃ p t, (atr candles n)[i - 1]? = some (some p) ∧
           (trueRange candles)[i]? = some t ∧
           (atr candles n)[i]? = some (some ((p * ((n : ℚ) - 1) + t) / n))))) := by
  by_cases hlt : (trueRange candles).length < n
  · constructor
    · simp [atr, hlt]
    · intro hge
      omega
  · have hge : n ≤ (trueRange candles).length := not_lt.mp hlt
    have htrlen := trueRange_length candles
    have hFlen : (atrFrom n (((trueRange candles).take n).sum / n)
        ((trueRange candles).drop n)).length = (trueRange candles).length - n := by
      rw [atrFrom_length, List.length_drop]
    have hatr := atr_eq_of_ge candles n hlt
    have hlen : (atr candles n).length = candles.length := by
      rw [hatr]
      simp only [List.length_append, List.length_replicate, List.length_cons,
        List.length_map, atrFrom_length, List.length_drop]
      omega
    refine ⟨⟨fun hnil => ?_, fun hc => absurd hc hlt⟩, fun _ => ⟨hlen, ?_, ?_, ?_⟩⟩
    · rw [hnil] at hlen
      simp at hlen
      omega
    · intro i hi
      rw [hatr, List.getElem?_append]
      rw [List.length_replicate, if_pos hi, List.getElem?_replicate, if_pos hi]
    · have h0 := atr_getElem_shift candles n hlt 0
      rw [Nat.add_zero] at h0
      rw [h0, List.getElem?_cons_zero]
    · intro i hni hil
      have hdw : ((trueRange candles).drop n)[i - n]? =
          some ((trueRange candles).get ⟨i, hil⟩) := by
        rw [List.getElem?_drop]
        rw [show n + (i - n) = i from by omega]
        simp [List.getElem?_eq_getElem hil]
      rcases Nat.eq_or_lt_of_le hni with hieq | higt
      · -- i = n : the previous value is the seed mean
        refine ⟨((trueRange candles).take n).sum / n,
               (trueRange candles).get ⟨i, hil⟩, ?_, ?_, ?_⟩
        · have h0 := atr_getElem_shift candles n hlt 0
          rw [Nat.add_zero] at h0
          rw [show i - 1 = n - 1 from by omega, h0, List.getElem?_cons_zero]
        · simp [List.getElem?_eq_getElem hil]
        · have hk := atr_getElem_shift candles n hlt (i - n + 1)
          rw [show n - 1 + (i - n + 1) = i from by omega] at hk
          rw [hk, List.getElem?_cons_succ, List.getElem?_map]
          rw [show i - n = 0 from by omega] at hdw ⊢
          obtain ⟨w, ws, hws⟩ := List.exists_cons_of_ne_nil
            (List.ne_nil_of_length_pos
              (show 0 < ((trueRange candles).drop n).length by
                rw [List.length_drop]; omega))
          rw [hws] at hdw ⊢
          rw [List.getElem?_cons_zero] at hdw
          injection hdw with hdw
          simp only [atrFrom, List.getElem?_cons_zero, Option.map_some]
          rw [hdw]
          rfl
      · -- i > n : the previous value sits inside the recurrence tail
        have hm1 : i - n - 1 < (atrFrom n (((trueRange candles).take n).sum / n)
            ((trueRange candles).drop n)).length := by omega
        refine ⟨(atrFrom n (((trueRange candles).take n).sum / n)
            ((trueRange candles).drop n)).get ⟨i - n - 1, hm1⟩,
            (trueRange candles).get ⟨i, hil⟩, ?_, ?_, ?_⟩
        · have hk := atr_getElem_shift candles n hlt (i - n)
          rw [show n - 1 + (i - n) = i - 1 from by omega] at hk
          rw [show i - n = (i - n - 1) + 1 from by omega] at hk
          rw [List.getElem?_cons_succ, List.getElem?_map] at hk
          rw [hk]
          simp [List.getElem?_eq_getElem hm1]
        · simp [List.getElem?_eq_getElem hil]
        · have hk := atr_getElem_shift candles n hlt (i - n + 1)
          rw [show n - 1 + (i - n + 1) = i from by omega] at hk
          rw [hk, List.getElem?_cons_succ, List.getElem?_map]
          have hstep := atrFrom_getElem_succ n (((trueRange candles).take n).sum / n)
            ((trueRange candles).drop n) (i - n - 1)
            ((atrFrom n (((trueRange candles).take n).sum / n)
              ((trueRange candles).drop n)).get ⟨i - n - 1, hm1⟩)
            ((trueRange candles).get ⟨i, hil⟩)
            (by simp [List.getElem?_eq_getElem hm1])
            (by rw [show i - n - 1 + 1 = i - n from by omega]; exact hdw)
          rw [show i - n - 1 + 1 = i - n from by omega] at hstep
          rw [hstep]
          rfl

/-- Candle list used by the C2 witness: three bars giving true ranges
3, 2 and 6 (closes 10, 11 and 12; the third bar spans 6 from its low). -/
def atrWitnessCandles : List Candle :=
  [{ o := 0, c := 10, h := 12, l := 9 },
   { o := 0, c := 11, h := 12, l := 10 },
   { o := 0, c := 12, h := 14, l := 8 }]

/-- Witness for C2 with period 2 on three concrete bars. -/
theorem atr_wilder_witness :
    1 ≤ 2 ∧
    ((atr atrWitnessCandles 2 = [] ↔ (trueRange atrWitnessCandles).length < 2) ∧
     (2 ≤ (trueRange atrWitnessCandles).length →
       (atr atrWitnessCandles 2).length = atrWitnessCandles.length ∧
       (∀ i, i < 2 - 1 → (atr atrWitnessCandles 2)[i]? = some Option.none) ∧
       (atr atrWitnessCandles 2)[2 - 1]? =
         some (some (((trueRange atrWitnessCandles).take 2).sum / 2)) ∧
       (∀ i, 2 ≤ i → i < (trueRange atrWitnessCandles).length →
         ∃ p t, (atr atrWitnessCandles 2)[i - 1]? = some (some p) ∧
           (trueRange atrWitnessCandles)[i]? = some t ∧
           (atr atrWitnessCandles 2)[i]? = some (some ((p * ((2 : ℚ) - 1) + t) / 2))))) :=
  ⟨by omega, atr_wilder atrWitnessCandles 2 (by omega)⟩

/-- C7: positionSize returns 0 whenever N ≤ 0 or price ≤ 0, for every equity,
risk percentage and precision; otherwise it returns
(riskPct/100 · equity)/(N · price) rounded down toward negative infinity
(floor) at the given precision — the claim's "truncated toward zero" is
refuted for negative raw sizes by the counterexample — and in particular the
result never exceeds the unrounded raw size. -/
theorem positionSize_guard_and_floor (accountUsd riskPct N price : ℚ) (szDecimals : ℕ) :
    ((N ≤ 0 ∨ price ≤ 0 → positionSize accountUsd riskPct N price szDecimals = 0) ∧
     (0 < N → 0 < price →
       positionSize accountUsd riskPct N price szDecimals =
         (⌊((riskPct / 100) * accountUsd) / (N * price) * 10 ^ szDecimals⌋ : ℚ) / 10 ^ szDecimals ∧
       positionSize accountUsd riskPct N price szDecimals ≤
         ((riskPct / 100) * accountUsd) / (N * price))) := by
  constructor
  · intro hz
    simp [positionSize, hz]
  · intro hN hp
    have hguard : ¬ (N ≤ 0 ∨ price ≤ 0) := by push_neg; exact ⟨hN, hp⟩
    constructor
    · simp [positionSize, hguard]
    · simp only [positionSize, hguard, if_false]
      have hfac : (0:ℚ) < 10 ^ szDecimals := by positivity
      rw [div_le_iff₀ hfac]
      calc (⌊((riskPct / 100) * accountUsd) / (N * price) * 10 ^ szDecimals⌋ : ℚ)
          ≤ ((riskPct / 100) * accountUsd) / (N * price) * 10 ^ szDecimals := Int.floor_le _
        _ = _ := by ring

/-- Counterexample to C7's rounding mode: with equity 50, risk −1 %, N = 1,
price = 1 and 0 digits, the raw size is −1/2; the code floors it to −1 while
truncation toward zero (the ceiling, for negatives) gives 0. -/
theorem positionSize_floor_not_trunc :
    positionSize 50 (-1) 1 1 0 = -1 ∧
      (⌈((-1 : ℚ) / 100 * 50) / (1 * 1)⌉ : ℚ) = 0 := by
  constructor
  · norm_num [positionSize]
  · norm_num

/-- Witness for C7 on the zero-guard branch with N = −1. -/
theorem positionSize_guard_witness :
    ((-1 : ℚ) ≤ 0 ∨ (100 : ℚ) ≤ 0) ∧ positionSize 10000 1 (-1) 100 3 = 0 :=
  ⟨Or.inl (by norm_num),
   (positionSize_guard_and_floor 10000 1 (-1) 100 3).1 (Or.inl (by norm_num))⟩

/-- C8 (amended): slTpLevels has no degenerate-parameter guard. For N ≤ 0 it
still returns sl = entry ∓ 2N — which then lies on the adverse side of the
entry — and, whenever a positive tpMultiple is supplied, a take-profit
entry ± tpMultiple·N computed from the degenerate N; the trailing exit is a
pass-through. The claim's "returns 0 / omits the optional field" is refuted
by the counterexample. -/
theorem slTpLevels_degenerate (entry N : ℚ) (isLong : Bool)
    (options : Option SlTpOptions) (hN : N ≤ 0) :
    ((slTpLevels entry N isLong options).sl =
        (if isLong then entry - 2 * N else entry + 2 * N)) ∧
    (isLong = true → entry ≤ (slTpLevels entry N isLong options).sl) ∧
    (isLong = false → (slTpLevels entry N isLong options).sl ≤ entry) ∧
    (∀ o m, options = some o → o.tpMultiple = some m → 0 < m →
      (slTpLevels entry N isLong options).tp =
        some (if isLong then entry + m * N else entry - m * N)) ∧
    (slTpLevels entry N isLong options).trailingExit =
      options.bind SlTpOptions.trailingExit := by
  refine ⟨rfl, ?_, ?_, ?_, rfl⟩
  · intro hl
    simp only [slTpLevels, hl, if_true]
    linarith
  · intro hl
    simp only [slTpLevels, hl, Bool.false_eq_true, if_false]
    linarith
  · intro o m ho hm hpos
    simp only [slTpLevels, ho, hm, if_pos hpos]

/-- Counterexample to C8 as stated: entry 100, N = −1, long, tpMultiple 4.
The code returns sl = 102 and tp = 96 — neither level is 0 and the
take-profit is not omitted, though it was computed from a degenerate N. -/
theorem slTpLevels_no_degenerate_guard :
    slTpLevels 100 (-1) true (some { tpMultiple := some 4, trailingExit := Option.none }) =
      { sl := 102, tp := some 96, trailingExit := Option.none } ∧
    ((96 : ℚ) ≠ 0 ∧ (102 : ℚ) ≠ 0) := by
  constructor
  · norm_num [slTpLevels]
  · norm_num

/-- Witness for C8 at entry 100, N = −1, long. -/
theorem slTpLevels_degenerate_witness :
    ((-1 : ℚ) ≤ 0) ∧
    (slTpLevels 100 (-1) true (some { tpMultiple := some 4, trailingExit := Option.none })).sl =
      (if (true : Bool) then (100 : ℚ) - 2 * (-1) else 100 + 2 * (-1)) :=
  ⟨by norm_num,
   (slTpLevels_degenerate 100 (-1) true
      (some { tpMultiple := some 4, trailingExit := Option.none }) (by norm_num)).1⟩

/-- When the direction fed to the strength block comes from breakoutSignal on
the same close and entry bands, the medium branch is unreachable: a long
direction already implies the close exceeds the entry upper band (and the
short case mirrors). -/
lemma strengthOf_breakoutSignal_ne_medium (c uE lE u55 l55 : ℚ) :
    strengthOf (breakoutSignal c uE lE) c uE lE u55 l55 ≠ Strength.medium := by
  by_cases h1 : c > uE
  · simp only [breakoutSignal, if_pos h1, strengthOf]
    split_ifs <;> first | decide | tauto
  · by_cases h2 : c < lE
    · simp only [breakoutSignal, if_neg h1, if_pos h2, strengthOf]
      split_ifs <;> first | decide | tauto
    · simp only [breakoutSignal, if_neg h1, if_neg h2, strengthOf]
      decide

/-- C10: whenever evaluationTag returns an Evaluation, its strength is never
medium — direction long already requires close above the entry upper band
(short mirrors below the lower band), so the confirmation-band-only branch
cannot fire and the strength is always none, weak or strong. -/
theorem evaluationTag_strength_not_medium (candles : List Candle)
    (lenEntry lenExit len55 : ℕ) (N threshold : ℚ) (useVolumeFilter : Bool)
    (ev : Evaluation)
    (hev : evaluationTag candles lenEntry lenExit len55 N threshold useVolumeFilter = some ev) :
    ev.strength ≠ Strength.medium := by
  simp only [evaluationTag] at hev
  split at hev
  · exact absurd hev (by simp)
  · split at hev
    · exact absurd hev (by simp)
    · split at hev
      · rw [Option.some_inj] at hev
        subst hev
        exact strengthOf_breakoutSignal_ne_medium _ _ _ _ _
      · exact absurd hev (by simp)

/-- All-zero candle used by concrete witnesses. -/
def flatCandle : Candle := { o := 0, c := 0, h := 0, l := 0 }

/-- Witness for C10 on two flat candles, where evaluationTag returns a
no-breakout evaluation. -/
theorem evaluationTag_strength_not_medium_witness :
    evaluationTag [flatCandle, flatCandle] 1 10 1 1 1 false =
      some { direction := Direction.none, strength := Strength.none,
             breakoutType := BreakoutType.none, tag := "None",
             suggestion := "No breakout; no entry." } ∧
    ({ direction := Direction.none, strength := Strength.none,
       breakoutType := BreakoutType.none, tag := "None",
       suggestion := "No breakout; no entry." : Evaluation }).strength ≠ Strength.medium := by
  have h : evaluationTag [flatCandle, flatCandle] 1 10 1 1 1 false =
      some { direction := Direction.none, strength := Strength.none,
             breakoutType := BreakoutType.none, tag := "None",
             suggestion := "No breakout; no entry." } := by
    norm_num [evaluationTag, flatCandle, donchianBands, breakoutSignal, strengthOf,
      breakoutType, volumeRatioOf, List.getLast?]
  exact ⟨h, evaluationTag_strength_not_medium _ _ _ _ _ _ _ _ h⟩

/-- C9 (amended): in the orchestrator, the volume ratio is defined exactly
when the volume filter is enabled, the last bar has a volume and at least 21
bars exist (not: 21 bars with volume); its value is the last volume over the
mean volume of the 20 bars before the last (missing volumes counting 0),
except that it is 1 when that mean is not positive; and the flag `ratio ≥ 1`
is exactly the volume-confirmation input given to the quality
classification inside the returned evaluation. -/
theorem evaluationTag_volume_threading (candles : List Candle)
    (lenEntry lenExit len55 : ℕ) (N threshold : ℚ) (useVolumeFilter : Bool)
    (last : Candle) (bE b55 : DonchianBands)
    (hlast : candles.getLast? = some last)
    (hguard : ¬ (candles.length - 1 < len55))
    (hbE : donchianBands candles lenEntry (candles.length - 1) = some bE)
    (hb55 : donchianBands candles len55 (candles.length - 1) = some b55) :
    ((volumeRatioOf useVolumeFilter candles = Option.none ↔
      ¬ (useVolumeFilter = true ∧ last.v ≠ Option.none ∧ 21 ≤ candles.length)) ∧
    (∀ v, last.v = some v → useVolumeFilter = true → 21 ≤ candles.length →
      volumeRatioOf useVolumeFilter candles =
        some (if (((candles.drop (candles.length - 1 - 20)).take 20).map
                  (fun cd => cd.v.getD 0)).sum / 20 > 0
              then v / ((((candles.drop (candles.length - 1 - 20)).take 20).map
                  (fun cd => cd.v.getD 0)).sum / 20)
              else 1)) ∧
    (∃ ev, evaluationTag candles lenEntry lenExit len55 N threshold useVolumeFilter = some ev ∧
      ev.breakoutType = breakoutType last bE.upper bE.lower N threshold
        ((volumeRatioOf useVolumeFilter candles).map (fun r => decide (r ≥ 1))))) := by
  refine ⟨?_, ?_, ?_⟩
  · simp only [volumeRatioOf, hlast]
    split_ifs with h
    · simp [h]
    · simp [h]
  · intro v hv hf hlen
    simp only [volumeRatioOf, hlast]
    rw [if_pos ⟨hf, by simp [hv], hlen⟩]
    rw [hv]
    simp only [Option.getD_some]
  · simp only [evaluationTag, hlast, hbE, hb55]
    rw [if_neg hguard]
    exact ⟨_, rfl, rfl⟩

/-- Bands of a flat window, as donchianBands literally builds them. -/
def bandsFlat : DonchianBands := { upper := 0, lower := 0, middle := (0 + 0) / 2 }

/-- Witness for C9 on two flat candles with the volume filter off. -/
theorem evaluationTag_volume_threading_witness :
    ([flatCandle, flatCandle] : List Candle).getLast? = some flatCandle ∧
    (∃ ev, evaluationTag [flatCandle, flatCandle] 1 10 1 1 1 false = some ev ∧
      ev.breakoutType = breakoutType flatCandle bandsFlat.upper bandsFlat.lower 1 1
        ((volumeRatioOf false [flatCandle, flatCandle]).map (fun r => decide (r ≥ 1)))) :=
  ⟨rfl,
   (evaluationTag_volume_threading [flatCandle, flatCandle] 1 10 1 1 1 false
      flatCandle bandsFlat bandsFlat rfl (by decide) rfl rfl).2.2⟩

/-- Twenty-one bars of which only the last carries a volume. -/
def volCexCandles : List Candle :=
  [flatCandle, flatCandle, flatCandle, flatCandle, flatCandle,
   flatCandle, flatCandle, flatCandle, flatCandle, flatCandle,
   flatCandle, flatCandle, flatCandle, flatCandle, flatCandle,
   flatCandle, flatCandle, flatCandle, flatCandle, flatCandle,
   { o := 0, c := 0, h := 0, l := 0, v := some 5 }]

/-- Counterexample to C9 as stated: only one bar of volCexCandles has a
volume, yet the code computes a ratio (the mean of the 20 prior volumes is 0,
so the fallback ratio 1 is produced and treated as confirming), refuting
"computed exactly when ... at least 21 bars with volume exist". -/
theorem volumeRatio_without_volume_bars :
    volumeRatioOf true volCexCandles = some 1 ∧
    (volCexCandles.filter (fun cd => cd.v.isSome)).length = 1 := by
  constructor
  · have hlast : volCexCandles.getLast? =
        some { o := 0, c := 0, h := 0, l := 0, v := some 5 } := rfl
    simp only [volumeRatioOf, hlast]
    rw [if_pos]
    · norm_num [volCexCandles, flatCandle]
    · refine ⟨by trivial, by simp, ?_⟩
      norm_num [volCexCandles]
  · decide
